import Mathlib

/-!
# Verification of the js_utilities case-conversion engine

Shallow embedding of `src/js_utilities/vanilla/utils.py`: the scalar
converters `camelize` / `decamelize`, their regex helpers
(`UNDERSCORE_RE`, `ACRONYM_RE`, `SPLIT_RE`), and the structural walker
`_process_keys`.

Characters are modelled as Unicode code points (`Nat`); strings as
`List Nat`.  The character-class predicates follow Python's `str`
semantics restricted to the ASCII range (the identifiers the engine is
designed for): `isupper` means "has at least one cased character and
every cased character is uppercase", `isnumeric` means "non-empty and
all digits".
-/

namespace JsUtils

/-- Code point of an ASCII uppercase letter. -/
def isUpperCh (c : Nat) : Bool := 65 ≤ c && c ≤ 90

/-- Code point of an ASCII lowercase letter. -/
def isLowerCh (c : Nat) : Bool := 97 ≤ c && c ≤ 122

/-- Cased character (ASCII letter), the notion underlying Python's
`str.isupper`. -/
def isCasedCh (c : Nat) : Bool := isUpperCh c || isLowerCh c

/-- ASCII decimal digit. -/
def isDigitCh (c : Nat) : Bool := 48 ≤ c && c ≤ 57

/-- The delimiter class `[-_\s]` of the module's regexes: hyphen,
underscore, or whitespace (space, tab, LF, VT, FF, CR). -/
def isDelim (c : Nat) : Bool :=
  c = 45 || c = 95 || c = 32 || c = 9 || c = 10 || c = 11 || c = 12 || c = 13

/-- `str.lower` on one character (ASCII range). -/
def pyToLower (c : Nat) : Nat := if isUpperCh c then c + 32 else c

/-- `str.upper` on one character (ASCII range). -/
def pyToUpper (c : Nat) : Nat := if isLowerCh c then c - 32 else c

/-- Python `str.isupper`: at least one cased character and no lowercase
cased character. -/
def pyIsUpper (l : List Nat) : Bool :=
  l.any isCasedCh && l.all (fun c => !isLowerCh c)

/-- Python `str.isnumeric` (ASCII): non-empty and all digits. -/
def pyIsNumeric (l : List Nat) : Bool :=
  !l.isEmpty && l.all isDigitCh

/-- Convert a Lean string literal to the code-point list model. -/
def str2l (s : String) : List Nat := s.data.map Char.toNat

/-!
## `UNDERSCORE_RE.sub(lambda m: m.group(0)[-1].upper(), s)`

`UNDERSCORE_RE = (?<=[^\-_\s])[\-_\s]+[^\-_\s]`: a delimiter run that is
preceded by a non-delimiter and followed by one non-delimiter; the whole
match is replaced by the upper-cased final character.  `subGo` scans the
region after the first non-delimiter character (`pend` is the reversed
delimiter run pending since the last non-delimiter); `camelSub` copies
the leading delimiter run, where the look-behind can never hold.
-/

/-- Scanner state after at least one non-delimiter has been emitted. -/
def subGo (pend : List Nat) : List Nat → List Nat
  | [] => pend.reverse
  | c :: rest =>
    if isDelim c then subGo (c :: pend) rest
    else if pend.isEmpty then c :: subGo [] rest
    else pyToUpper c :: subGo [] rest

/-- The full `UNDERSCORE_RE` substitution. -/
def camelSub : List Nat → List Nat
  | [] => []
  | c :: rest => if isDelim c then c :: camelSub rest else c :: subGo [] rest

/-- `s[0].lower() + s[1:]`. -/
def lowerFirst : List Nat → List Nat
  | [] => []
  | c :: rest => pyToLower c :: rest

/-- The scalar string path of `camelize` (lines 386-393): early-out for
`isupper`/`isnumeric`, conditional lower-casing of the first character
(guard `len(s) != 0 and not s[:2].isupper()`), then the `UNDERSCORE_RE`
substitution. -/
def camelizeStr (s : List Nat) : List Nat :=
  if pyIsUpper s || pyIsNumeric s then s
  else camelSub (if !s.isEmpty && !pyIsUpper (s.take 2) then lowerFirst s else s)

/-!
## `ACRONYM_RE.sub(lambda m: m.group(0).title(), s)`

`ACRONYM_RE = ([A-Z]+)$|([A-Z]+)(?=[A-Z\d])`.  At a given position the
first alternative matches a run of uppercase letters extending to the end
of the string; otherwise the second matches a run followed (look-ahead,
not consumed) by an uppercase letter or digit — greedily the whole run
when a digit follows, else the run minus its last letter (needing length
at least 2), scanning resuming at that last letter, where no further
match can start since a non-upper, non-digit character follows it.
`.title()` of an uppercase run upper-cases its first letter (a no-op) and
lower-cases the rest.
-/

/-- `.title()` of an all-uppercase match group. -/
def titleRun : List Nat → List Nat
  | [] => []
  | c :: rest => c :: rest.map pyToLower

/-- Scanner for the `ACRONYM_RE` substitution; `run` is the reversed
current run of uppercase letters. -/
def acronymGo (run : List Nat) : List Nat → List Nat
  | [] => titleRun run.reverse
  | c :: rest =>
    if isUpperCh c then acronymGo (c :: run) rest
    else if isDigitCh c then
      titleRun run.reverse ++ c :: acronymGo [] rest
    else
      match run with
      | [] => c :: acronymGo [] rest
      | [u] => u :: c :: acronymGo [] rest
      | u :: us => titleRun (u :: us).reverse.dropLast ++ u :: c :: acronymGo [] rest

/-- The full `ACRONYM_RE` substitution. -/
def acronymSub (l : List Nat) : List Nat := acronymGo [] l

/-!
## `SPLIT_RE.split` and the join in `decamelize`

`SPLIT_RE = ([\-_\s]*[A-Z]+?[^A-Z\-_\s]*[\-_\s]*)`.  The lazy `[A-Z]+?`
always matches exactly one letter (everything after it can match empty),
so each match is: a (possibly empty) delimiter run, one uppercase letter,
a run of non-upper non-delimiter characters, and a greedy trailing
delimiter run.  `re.split` with one capture group returns the in-between
pieces interleaved with the matched groups.  `splitAux` scans once:
outside a match (`inTok = false`) `a` is the reversed current piece and
`b` the reversed delimiter run pending after it (which belongs to the
next token if an uppercase letter follows, to the piece otherwise);
inside a match (`inTok = true`) `a` is the reversed token body and `b`
its reversed pending trailing delimiter run.
-/

def splitAux (inTok : Bool) (a b : List Nat) : List Nat → List (List Nat)
  | [] =>
    if inTok then [(b ++ a).reverse, []] else [(b ++ a).reverse]
  | c :: rest =>
    if isDelim c then splitAux inTok a (c :: b) rest
    else if isUpperCh c then
      if inTok then (b ++ a).reverse :: splitAux true [c] [] rest
      else a.reverse :: splitAux true (c :: b) [] rest
    else
      if inTok then
        if b.isEmpty then splitAux true (c :: a) [] rest
        else (b ++ a).reverse :: splitAux false [c] [] rest
      else splitAux false (c :: (b ++ a)) [] rest

/-- `SPLIT_RE.split(s)`: pieces and captured groups, in order. -/
def splitPieces (l : List Nat) : List (List Nat) := splitAux false [] [] l

/-- `'_'.join(pieces)`. -/
def joinUnderscore : List (List Nat) → List Nat
  | [] => []
  | [p] => p
  | p :: ps => p ++ 95 :: joinUnderscore ps

/-- The scalar string path of `decamelize` (lines 408-412): early-out
for `isupper`/`isnumeric`, `ACRONYM_RE` retitling, split, discard empty
fragments, join with underscores, lower-case. -/
def decamelizeStr (s : List Nat) : List Nat :=
  if pyIsUpper s || pyIsNumeric s then s
  else
    (joinUnderscore (((splitPieces (acronymSub s)).filter
      (fun p => !p.isEmpty)))).map pyToLower

/-!
## Python values and the structural walker

`PyVal` models the runtime values the engine handles: strings, ints,
bools, `None`, lists, and (insertion-ordered) dicts as association
lists.  Python dicts never hold duplicate keys; a dict comprehension
that produces an already-present key overwrites the value at the first
occurrence, which `dinsert`/`buildDict` reproduce.  Structural equality
of `PyVal` stands in for Python `==` on keys (the cross-type
identifications such as `True == 1` are never relied on below).
-/

inductive PyVal : Type where
  | vstr : List Nat → PyVal
  | vint : Int → PyVal
  | vbool : Bool → PyVal
  | vnone : PyVal
  | vlist : List PyVal → PyVal
  | vdict : List (PyVal × PyVal) → PyVal

/-- Python truthiness of a `PyVal`. -/
def pyTruthy : PyVal → Bool
  | .vstr s => !s.isEmpty
  | .vint n => n ≠ 0
  | .vbool b => b
  | .vnone => false
  | .vlist l => !l.isEmpty
  | .vdict d => !d.isEmpty

/-- Digits of a positive natural number, most significant first. -/
def natToDigits : Nat → List Nat
  | 0 => []
  | n + 1 => natToDigits ((n + 1) / 10) ++ [48 + (n + 1) % 10]

/-- Python `str()` of an int. -/
def intRepr (n : Int) : List Nat :=
  if n < 0 then 45 :: natToDigits n.natAbs
  else if n = 0 then [48] else natToDigits n.natAbs

/-- Python `str()` of the non-container scalars (`str`, `int`, `bool`,
`None`); the container cases never reach the scalar path of the
converters and are given their argument-free placeholder. -/
def pyStr : PyVal → List Nat
  | .vstr s => s
  | .vint n => intRepr n
  | .vbool true => str2l "True"
  | .vbool false => str2l "False"
  | .vnone => str2l "None"
  | .vlist _ => []
  | .vdict _ => []

/-- The scalar branch of `camelize` on an arbitrary non-container value:
`s = str(str_or_iter if str_or_iter else '')`, the early-out returning
the original value, else the converted string. -/
def scalarCamelize (v : PyVal) : PyVal :=
  let s := if pyTruthy v then pyStr v else []
  if pyIsUpper s || pyIsNumeric s then v
  else .vstr (camelSub (if !s.isEmpty && !pyIsUpper (s.take 2) then lowerFirst s else s))

/-- The scalar branch of `decamelize` on an arbitrary non-container
value. -/
def scalarDecamelize (v : PyVal) : PyVal :=
  let s := if pyTruthy v then pyStr v else []
  if pyIsUpper s || pyIsNumeric s then v
  else
    .vstr ((joinUnderscore (((splitPieces (acronymSub s)).filter
      (fun p => !p.isEmpty)))).map pyToLower)

/-- Equality of dict keys: Python `==` on the hashable scalar values.
Containers are unhashable in Python and can never be dict keys, so
comparing them `false` is unreachable on real inputs; the cross-type
identifications `True == 1` and `1 == 1.0` are never relied on below. -/
def keyEq : PyVal → PyVal → Bool
  | .vstr a, .vstr b => a = b
  | .vint a, .vint b => a = b
  | .vbool a, .vbool b => a = b
  | .vnone, .vnone => true
  | _, _ => false

/-- One assignment `d[k] = v` of the dict comprehension: overwrite at an
already-present equal key, else append. -/
def dinsert (d : List (PyVal × PyVal)) (k v : PyVal) : List (PyVal × PyVal) :=
  if d.any (fun p => keyEq p.1 k) then
    d.map (fun p => if keyEq p.1 k then (p.1, v) else p)
  else d ++ [(k, v)]

/-- Evaluate a dict comprehension: insert the produced pairs in order. -/
def buildDict (l : List (PyVal × PyVal)) : List (PyVal × PyVal) :=
  l.foldl (fun acc kv => dinsert acc kv.1 kv.2) []

/-- A non-container value: one the walker returns unchanged. -/
def isScalar : PyVal → Bool
  | .vlist _ => false
  | .vdict _ => false
  | _ => true

mutual

/-- `camelize` (lines 374-393): lists and mappings go to the walker,
everything else to the scalar branch. -/
def camelize : PyVal → PyVal
  | .vlist l => .vlist (camList l)
  | .vdict d => .vdict (buildDict (camDict d))
  | v => scalarCamelize v

/-- `_process_keys(x, camelize)` (lines 415-429): lists walk their
elements, mappings rebuild with converted keys and walked values, and
anything else — including a bare string — is returned unchanged. -/
def processKeysCam : PyVal → PyVal
  | .vlist l => .vlist (camList l)
  | .vdict d => .vdict (buildDict (camDict d))
  | v => v

/-- `[_process_keys(k, fn) for k in str_or_iter]`. -/
def camList : List PyVal → List PyVal
  | [] => []
  | v :: r => processKeysCam v :: camList r

/-- The pairs `(fn(k), _process_keys(v, fn))` of the dict comprehension,
in iteration order, before insertion. -/
def camDict : List (PyVal × PyVal) → List (PyVal × PyVal)
  | [] => []
  | (k, v) :: r => (camelize k, processKeysCam v) :: camDict r

end

mutual

/-- `decamelize` (lines 396-412). -/
def decamelize : PyVal → PyVal
  | .vlist l => .vlist (decList l)
  | .vdict d => .vdict (buildDict (decDict d))
  | v => scalarDecamelize v

/-- `_process_keys(x, decamelize)`. -/
def processKeysDec : PyVal → PyVal
  | .vlist l => .vlist (decList l)
  | .vdict d => .vdict (buildDict (decDict d))
  | v => v

def decList : List PyVal → List PyVal
  | [] => []
  | v :: r => processKeysDec v :: decList r

def decDict : List (PyVal × PyVal) → List (PyVal × PyVal)
  | [] => []
  | (k, v) :: r => (decamelize k, processKeysDec v) :: decDict r

end

/-!
## Character-class lemmas
-/

theorem isDelim_not_lower {c : Nat} (h : isDelim c = true) : isLowerCh c = false := by
  simp only [isDelim, Bool.or_eq_true, decide_eq_true_eq] at h
  simp only [isLowerCh, Bool.and_eq_false_iff, decide_eq_false_iff_not]
  omega

theorem pyToUpper_not_lower (c : Nat) : isLowerCh (pyToUpper c) = false := by
  by_cases h : isLowerCh c = true
  · have h' : 97 ≤ c ∧ c ≤ 122 := by simpa [isLowerCh] using h
    have e : pyToUpper c = c - 32 := by simp [pyToUpper, h]
    rw [e]
    simp only [isLowerCh, Bool.and_eq_false_iff, decide_eq_false_iff_not]
    omega
  · have e : pyToUpper c = c := by simp [pyToUpper, h]
    rw [e]
    simpa using h

theorem pyToUpper_not_delim {c : Nat} (h : isDelim c = false) :
    isDelim (pyToUpper c) = false := by
  by_cases hl : isLowerCh c = true
  · have h' : 97 ≤ c ∧ c ≤ 122 := by simpa [isLowerCh] using hl
    have e : pyToUpper c = c - 32 := by simp [pyToUpper, hl]
    rw [e]
    simp only [isDelim, Bool.or_eq_false_iff, decide_eq_false_iff_not]
    omega
  · have e : pyToUpper c = c := by simp [pyToUpper, hl]
    rw [e, h]

theorem pyToLower_not_upper (c : Nat) : isUpperCh (pyToLower c) = false := by
  by_cases h : isUpperCh c = true
  · have h' : 65 ≤ c ∧ c ≤ 90 := by simpa [isUpperCh] using h
    have e : pyToLower c = c + 32 := by simp [pyToLower, h]
    rw [e]
    simp only [isUpperCh, Bool.and_eq_false_iff, decide_eq_false_iff_not]
    omega
  · have e : pyToLower c = c := by simp [pyToLower, h]
    rw [e]
    simpa using h

theorem pyToLower_eq_self {c : Nat} (h : isUpperCh c = false) : pyToLower c = c := by
  simp [pyToLower, h]

theorem not_lower_of_upper {c : Nat} (h : isUpperCh c = true) : isLowerCh c = false := by
  simp only [isUpperCh, Bool.and_eq_true, decide_eq_true_eq] at h
  simp only [isLowerCh, Bool.and_eq_false_iff, decide_eq_false_iff_not]
  omega

theorem upper_of_cased_not_lower {c : Nat} (hc : isCasedCh c = true)
    (hl : isLowerCh c = false) : isUpperCh c = true := by
  simp only [isCasedCh, Bool.or_eq_true] at hc
  rcases hc with h | h
  · exact h
  · rw [h] at hl; exact absurd hl (by simp)

/-- A string with no uppercase character is not Python-`isupper`. -/
theorem pyIsUpper_eq_false_of_no_upper {l : List Nat}
    (h : ∀ c ∈ l, isUpperCh c = false) : pyIsUpper l = false := by
  unfold pyIsUpper
  by_cases ha : l.any isCasedCh = true
  · rw [List.any_eq_true] at ha
    obtain ⟨c, hc, hcc⟩ := ha
    have : isLowerCh c = true := by
      simp only [isCasedCh, Bool.or_eq_true] at hcc
      rcases hcc with hu | hl
      · rw [h c hc] at hu; exact absurd hu (by simp)
      · exact hl
    have : l.all (fun c => !isLowerCh c) = false := by
      rw [Bool.eq_false_iff]
      intro hall
      rw [List.all_eq_true] at hall
      have := hall c hc
      simp_all
    simp [this]
  · simp only [Bool.not_eq_true] at ha
    simp [ha]

/-!
## Structure of the `UNDERSCORE_RE` substitution
-/

theorem subGo_all_delim {D : List Nat} (hD : ∀ c ∈ D, isDelim c = true) :
    ∀ pend : List Nat, subGo pend D = pend.reverse ++ D := by
  induction D with
  | nil => intro pend; simp [subGo]
  | cons c rest ih =>
    intro pend
    have hc : isDelim c = true := hD c (by simp)
    rw [subGo, if_pos hc, ih (fun x hx => hD x (by simp [hx]))]
    simp

/-- Shape of the scanner output: non-delimiters followed by a trailing
delimiter run. -/
theorem subGo_shape (l : List Nat) :
    ∀ pend : List Nat, (∀ c ∈ pend, isDelim c = true) →
    ∃ M D, subGo pend l = M ++ D ∧ (∀ c ∈ M, isDelim c = false) ∧
      (∀ c ∈ D, isDelim c = true) := by
  induction l with
  | nil =>
    intro pend hp
    exact ⟨[], pend.reverse, by simp [subGo], by simp, fun c hc => hp c (by simpa using hc)⟩
  | cons c rest ih =>
    intro pend hp
    by_cases hc : isDelim c = true
    · rw [subGo, if_pos hc]
      exact ih (c :: pend) (List.forall_mem_cons.2 ⟨hc, hp⟩)
    · rw [subGo, if_neg (by simp [hc])]
      by_cases hpe : pend.isEmpty = true
      · rw [if_pos hpe]
        obtain ⟨M, D, heq, hM, hD⟩ := ih [] (by simp)
        exact ⟨c :: M, D, by simp [heq],
          List.forall_mem_cons.2 ⟨by simpa using hc, hM⟩, hD⟩
      · rw [if_neg hpe]
        obtain ⟨M, D, heq, hM, hD⟩ := ih [] (by simp)
        exact ⟨pyToUpper c :: M, D, by simp [heq],
          List.forall_mem_cons.2 ⟨pyToUpper_not_delim (by simpa using hc), hM⟩, hD⟩

/-- A string of the output shape is a fixed point of the scanner. -/
theorem subGo_fixed {M D : List Nat} (hM : ∀ c ∈ M, isDelim c = false)
    (hD : ∀ c ∈ D, isDelim c = true) : subGo [] (M ++ D) = M ++ D := by
  induction M with
  | nil => simpa using subGo_all_delim hD []
  | cons m M' ih =>
    have hm : isDelim m = false := hM m (by simp)
    rw [List.cons_append, subGo, if_neg (by simp [hm]), if_pos (by simp)]
    rw [ih (fun c hc => hM c (by simp [hc]))]

theorem camelSub_delim_prefix {D : List Nat} (hD : ∀ c ∈ D, isDelim c = true)
    (l : List Nat) : camelSub (D ++ l) = D ++ camelSub l := by
  induction D with
  | nil => simp
  | cons c rest ih =>
    have hc : isDelim c = true := hD c (by simp)
    rw [List.cons_append, camelSub, if_pos hc, ih (fun x hx => hD x (by simp [hx]))]
    simp

/-- The substitution never changes the first character. -/
theorem camelSub_cons (c : Nat) (l : List Nat) :
    camelSub (c :: l) = c :: (if isDelim c = true then camelSub l else subGo [] l) := by
  by_cases h : isDelim c = true <;> simp [camelSub, h]

theorem camelSub_shape (l : List Nat) :
    ∃ D1 M D2, camelSub l = D1 ++ M ++ D2 ∧ (∀ c ∈ D1, isDelim c = true) ∧
      (∀ c ∈ M, isDelim c = false) ∧ (∀ c ∈ D2, isDelim c = true) := by
  induction l with
  | nil => exact ⟨[], [], [], by simp [camelSub], by simp, by simp, by simp⟩
  | cons c rest ih =>
    by_cases hc : isDelim c = true
    · obtain ⟨D1, M, D2, heq, h1, h2, h3⟩ := ih
      exact ⟨c :: D1, M, D2, by rw [camelSub_cons, if_pos hc, heq]; simp,
        List.forall_mem_cons.2 ⟨hc, h1⟩, h2, h3⟩
    · obtain ⟨M, D, heq, hM, hD⟩ := subGo_shape rest [] (by simp)
      exact ⟨[], c :: M, D, by rw [camelSub_cons, if_neg hc, heq]; simp,
        by simp, List.forall_mem_cons.2 ⟨by simpa using hc, hM⟩, hD⟩

theorem camelSub_fixed {D1 M D2 : List Nat} (h1 : ∀ c ∈ D1, isDelim c = true)
    (h2 : ∀ c ∈ M, isDelim c = false) (h3 : ∀ c ∈ D2, isDelim c = true) :
    camelSub (D1 ++ M ++ D2) = D1 ++ M ++ D2 := by
  rw [List.append_assoc, camelSub_delim_prefix h1]
  cases M with
  | nil =>
    simp only [List.nil_append]
    have h := camelSub_delim_prefix h3 []
    simpa [camelSub] using h
  | cons m M' =>
    rw [List.cons_append, camelSub_cons, if_neg (by simp [h2 m (by simp)])]
    rw [subGo_fixed (List.forall_mem_cons.1 h2).2 h3]

/-- The `UNDERSCORE_RE` substitution is idempotent. -/
theorem camelSub_idem (l : List Nat) : camelSub (camelSub l) = camelSub l := by
  obtain ⟨D1, M, D2, heq, h1, h2, h3⟩ := camelSub_shape l
  rw [heq, camelSub_fixed h1 h2 h3]

/-- Scanning a delimiter run never emits a lowercase letter first: the
run either ends the string (delimiters come out) or is collapsed into an
upper-cased character. -/
theorem subGo_head_not_lower (l : List Nat) :
    ∀ pend : List Nat, (∀ c ∈ pend, isDelim c = true) → pend ≠ [] →
    ∀ x, (subGo pend l).head? = some x → isLowerCh x = false := by
  induction l with
  | nil =>
    intro pend hp hne x hx
    rw [subGo] at hx
    cases hr : pend.reverse with
    | nil => exact absurd (by simpa using hr) hne
    | cons a t =>
      rw [hr] at hx
      simp only [List.head?_cons, Option.some.injEq] at hx
      subst hx
      have ha : a ∈ pend := by
        rw [← List.mem_reverse, hr]; simp
      exact isDelim_not_lower (hp a ha)
  | cons c rest ih =>
    intro pend hp hne x hx
    by_cases hc : isDelim c = true
    · rw [subGo, if_pos hc] at hx
      exact ih (c :: pend) (List.forall_mem_cons.2 ⟨hc, hp⟩) (by simp) x hx
    · rw [subGo, if_neg (by simp [hc]), if_neg (by simpa using hne)] at hx
      simp only [List.head?_cons, Option.some.injEq] at hx
      subst hx
      exact pyToUpper_not_lower c

/-!
## C1: idempotence of the scalar converters
-/

theorem camelizeStr_early {s : List Nat}
    (h : pyIsUpper s = true ∨ pyIsNumeric s = true) : camelizeStr s = s := by
  unfold camelizeStr
  rcases h with h | h <;> simp [h]

theorem camelizeStr_main {s : List Nat}
    (h1 : pyIsUpper s = false) (h2 : pyIsNumeric s = false) :
    camelizeStr s =
      camelSub (if !s.isEmpty && !pyIsUpper (s.take 2) then lowerFirst s else s) := by
  unfold camelizeStr
  simp [h1, h2]

/-- `toCamel` is idempotent on strings. -/
theorem camelizeStr_idem (s : List Nat) :
    camelizeStr (camelizeStr s) = camelizeStr s := by
  by_cases h0 : pyIsUpper s = true ∨ pyIsNumeric s = true
  · rw [camelizeStr_early h0, camelizeStr_early h0]
  · simp only [not_or, Bool.not_eq_true] at h0
    obtain ⟨hu, hn⟩ := h0
    rw [camelizeStr_main hu hn]
    set s2 := if !s.isEmpty && !pyIsUpper (s.take 2) then lowerFirst s else s with hs2
    set t := camelSub s2 with ht
    by_cases h1 : pyIsUpper t = true ∨ pyIsNumeric t = true
    · exact camelizeStr_early h1
    · simp only [not_or, Bool.not_eq_true] at h1
      obtain ⟨hu', hn'⟩ := h1
      rw [camelizeStr_main hu' hn']
      by_cases h2 : (!t.isEmpty && !pyIsUpper (t.take 2)) = true
      · -- the second pass would lower-case the first character of `t`;
        -- show that character is already not uppercase
        have hlow : lowerFirst t = t := by
          cases hT : t with
          | nil => simp [lowerFirst]
          | cons th tl =>
            suffices hup : isUpperCh th = false by
              simp [lowerFirst, pyToLower_eq_self hup]
            -- `t` is nonempty, hence so is `s2`, hence so is `s`
            cases hS : s with
            | nil =>
              exfalso
              have : s2 = [] := by
                rw [hs2, hS]
                simp [lowerFirst]
              rw [ht, this] at hT
              simp [camelSub] at hT
            | cons c rest =>
              by_cases hcond : (!s.isEmpty && !pyIsUpper (s.take 2)) = true
              · -- first pass lower-cased the head; head of `t` is that char
                have hs2' : s2 = pyToLower c :: rest := by
                  rw [hs2, if_pos hcond, hS, lowerFirst]
                have hY : t = pyToLower c :: (if isDelim (pyToLower c) = true
                    then camelSub rest else subGo [] rest) := by
                  rw [ht, hs2', camelSub_cons]
                have hhd := congrArg List.head? (hT.symm.trans hY)
                simp only [List.head?_cons, Option.some.injEq] at hhd
                rw [hhd]
                exact pyToLower_not_upper c
              · -- first pass left the head alone because `s[:2].isupper()`
                have hs2' : s2 = c :: rest := by
                  rw [hs2, if_neg hcond, hS]
                have htup : pyIsUpper (s.take 2) = true := by
                  rw [Bool.and_eq_true] at hcond
                  push_neg at hcond
                  rcases Decidable.em ((!s.isEmpty) = true) with he | he
                  · have := hcond he
                    simpa using this
                  · exfalso
                    rw [hS] at he
                    simp at he
                have hY : t = c :: (if isDelim c = true
                    then camelSub rest else subGo [] rest) := by
                  rw [ht, hs2', camelSub_cons]
                by_cases hcu : isUpperCh c = true
                · -- head is uppercase: the second character of `t` cannot be
                  -- lowercase, so `t[:2].isupper()` holds, contradicting `h2`
                  exfalso
                  rw [Bool.and_eq_true] at h2
                  have hnt : pyIsUpper (t.take 2) = false := by
                    have := h2.2
                    simpa using this
                  have hcd : isDelim c = false := by
                    simp only [isUpperCh, Bool.and_eq_true, decide_eq_true_eq] at hcu
                    simp only [isDelim, Bool.or_eq_false_iff, decide_eq_false_iff_not]
                    omega
                  rw [hcd] at hY
                  simp only [Bool.false_eq_true, if_false] at hY
                  have h2nd : ∀ y, (subGo [] rest).head? = some y → isLowerCh y = false := by
                    intro y hy
                    cases hR : rest with
                    | nil =>
                      rw [hR] at hy
                      simp [subGo] at hy
                    | cons c2 rest' =>
                      by_cases hc2 : isDelim c2 = true
                      · rw [hR, subGo, if_pos hc2] at hy
                        exact subGo_head_not_lower rest' [c2]
                          (List.forall_mem_cons.2 ⟨hc2, by simp⟩) (by simp) y hy
                      · rw [hR, subGo, if_neg (by simp [hc2]), if_pos (by simp)] at hy
                        simp only [List.head?_cons, Option.some.injEq] at hy
                        subst hy
                        -- `c2` is the second char of `s`; `s[:2].isupper()`
                        -- makes it non-lowercase
                        rw [hS, hR] at htup
                        unfold pyIsUpper at htup
                        rw [Bool.and_eq_true, List.all_eq_true] at htup
                        have := htup.2 c2 (by simp)
                        simpa using this
                  cases hYv : subGo [] rest with
                  | nil =>
                    have h2c : t.take 2 = [c] := by rw [hY, hYv]; rfl
                    rw [h2c] at hnt
                    unfold pyIsUpper at hnt
                    simp [isCasedCh, hcu, not_lower_of_upper hcu] at hnt
                  | cons y ys =>
                    have hyl : isLowerCh y = false := h2nd y (by rw [hYv]; simp)
                    have h2c : t.take 2 = [c, y] := by rw [hY, hYv]; rfl
                    rw [h2c] at hnt
                    unfold pyIsUpper at hnt
                    simp [isCasedCh, hcu, not_lower_of_upper hcu, hyl] at hnt
                · -- head not uppercase: nothing to lower-case
                  have hhd := congrArg List.head? (hT.symm.trans hY)
                  simp only [List.head?_cons, Option.some.injEq] at hhd
                  rw [hhd]
                  simpa using hcu
        rw [if_pos h2, hlow, ht, camelSub_idem]
      · rw [if_neg (by simpa using h2), ht, camelSub_idem]

theorem map_pyToLower_eq_self {u : List Nat}
    (hu : ∀ c ∈ u, isUpperCh c = false) : u.map pyToLower = u := by
  induction u with
  | nil => simp
  | cons x xs ih =>
    simp [pyToLower_eq_self (hu x (by simp)), ih (fun c hc => hu c (by simp [hc]))]

theorem no_upper_map_pyToLower (u : List Nat) :
    ∀ c ∈ u.map pyToLower, isUpperCh c = false := by
  intro c hc
  rw [List.mem_map] at hc
  obtain ⟨x, _, rfl⟩ := hc
  exact pyToLower_not_upper x

/-- The `ACRONYM_RE` substitution does nothing on a string without
uppercase letters. -/
theorem acronymGo_no_upper {l : List Nat} (h : ∀ c ∈ l, isUpperCh c = false) :
    acronymGo [] l = l := by
  induction l with
  | nil => simp [acronymGo, titleRun]
  | cons c rest ih =>
    have hc := h c (by simp)
    have ih' := ih (fun x hx => h x (by simp [hx]))
    by_cases hd : isDigitCh c = true
    · simp [acronymGo, hc, hd, titleRun, ih']
    · simp [acronymGo, hc, hd, ih']

/-- Without an uppercase letter, `SPLIT_RE` never matches: the split is
one single piece. -/
theorem splitAux_no_upper {l : List Nat} (h : ∀ c ∈ l, isUpperCh c = false) :
    ∀ a b : List Nat, splitAux false a b l = [(b ++ a).reverse ++ l] := by
  induction l with
  | nil => intro a b; simp [splitAux]
  | cons c rest ih =>
    intro a b
    have hc := h c (by simp)
    have ih' := ih (fun x hx => h x (by simp [hx]))
    by_cases hd : isDelim c = true
    · simp [splitAux, hd, ih']
    · simp [splitAux, hd, hc, ih']

theorem decamelizeStr_early {s : List Nat}
    (h : pyIsUpper s = true ∨ pyIsNumeric s = true) : decamelizeStr s = s := by
  unfold decamelizeStr
  rcases h with h | h <;> simp [h]

theorem decamelizeStr_main {s : List Nat}
    (h1 : pyIsUpper s = false) (h2 : pyIsNumeric s = false) :
    decamelizeStr s =
      (joinUnderscore (((splitPieces (acronymSub s)).filter
        (fun p => !p.isEmpty)))).map pyToLower := by
  unfold decamelizeStr
  simp [h1, h2]

/-- A string without uppercase letters is a fixed point of the
`decamelize` string path. -/
theorem decamelizeStr_fixed_of_no_upper {t : List Nat}
    (h : ∀ c ∈ t, isUpperCh c = false) : decamelizeStr t = t := by
  by_cases h0 : pyIsUpper t = true ∨ pyIsNumeric t = true
  · exact decamelizeStr_early h0
  · simp only [not_or, Bool.not_eq_true] at h0
    rw [decamelizeStr_main h0.1 h0.2]
    have e1 : acronymSub t = t := acronymGo_no_upper h
    have e2 : splitPieces t = [t] := by
      unfold splitPieces
      rw [splitAux_no_upper h]
      simp
    rw [e1, e2]
    cases hT : t with
    | nil => simp [joinUnderscore]
    | cons x xs =>
      rw [← hT]
      have e3 : (([t] : List (List Nat)).filter fun p => !p.isEmpty) = [t] := by
        rw [hT]; simp
      rw [e3, joinUnderscore]
      exact map_pyToLower_eq_self h

/-- `toSnake` is idempotent on strings. -/
theorem decamelizeStr_idem (s : List Nat) :
    decamelizeStr (decamelizeStr s) = decamelizeStr s := by
  by_cases h0 : pyIsUpper s = true ∨ pyIsNumeric s = true
  · rw [decamelizeStr_early h0, decamelizeStr_early h0]
  · simp only [not_or, Bool.not_eq_true] at h0
    rw [decamelizeStr_main h0.1 h0.2]
    exact decamelizeStr_fixed_of_no_upper (no_upper_map_pyToLower _)

/-!
## Bridges between the `PyVal` entry points and the string paths
-/

theorem camelize_vstr (s : List Nat) :
    camelize (.vstr s) = .vstr (camelizeStr s) := by
  have hs : (if pyTruthy (.vstr s) = true then pyStr (.vstr s) else []) = s := by
    by_cases h : s.isEmpty = true
    · rw [List.isEmpty_iff] at h
      simp [pyTruthy, h]
    · simp [pyTruthy, h, pyStr]
  simp only [camelize]
  unfold scalarCamelize
  rw [hs]
  unfold camelizeStr
  by_cases h0 : (pyIsUpper s || pyIsNumeric s) = true
  · simp [h0]
  · simp only [Bool.not_eq_true] at h0
    simp [h0]

theorem decamelize_vstr (s : List Nat) :
    decamelize (.vstr s) = .vstr (decamelizeStr s) := by
  have hs : (if pyTruthy (.vstr s) = true then pyStr (.vstr s) else []) = s := by
    by_cases h : s.isEmpty = true
    · rw [List.isEmpty_iff] at h
      simp [pyTruthy, h]
    · simp [pyTruthy, h, pyStr]
  simp only [decamelize]
  unfold scalarDecamelize
  rw [hs]
  unfold decamelizeStr
  by_cases h0 : (pyIsUpper s || pyIsNumeric s) = true
  · simp [h0]
  · simp only [Bool.not_eq_true] at h0
    simp [h0]

theorem subGo_length (l : List Nat) :
    ∀ pend : List Nat, (subGo pend l).length ≤ pend.length + l.length := by
  induction l with
  | nil => intro pend; simp [subGo]
  | cons c rest ih =>
    intro pend
    by_cases hc : isDelim c = true
    · rw [subGo, if_pos hc]
      have := ih (c :: pend)
      simp only [List.length_cons] at this ⊢
      omega
    · rw [subGo, if_neg (by simp [hc])]
      by_cases hp : pend.isEmpty = true
      · rw [if_pos hp]
        have := ih []
        simp only [List.length_cons, List.length_nil] at this ⊢
        omega
      · rw [if_neg hp]
        have := ih []
        simp only [List.length_cons, List.length_nil] at this ⊢
        omega

theorem camelSub_length (l : List Nat) : (camelSub l).length ≤ l.length := by
  induction l with
  | nil => simp [camelSub]
  | cons c rest ih =>
    by_cases hc : isDelim c = true
    · rw [camelSub, if_pos hc]
      simpa using ih
    · rw [camelSub, if_neg (by simp [hc])]
      have := subGo_length rest []
      simp only [List.length_cons, List.length_nil] at this ⊢
      omega

theorem lowerFirst_length (s : List Nat) : (lowerFirst s).length = s.length := by
  cases s <;> simp [lowerFirst]

/-!
## Equation bridges for the mutually recursive walker
-/

theorem camelize_vlist (l : List PyVal) :
    camelize (.vlist l) = .vlist (camList l) := by
  simp only [camelize]

theorem camelize_vdict (d : List (PyVal × PyVal)) :
    camelize (.vdict d) = .vdict (buildDict (camDict d)) := by
  simp only [camelize]

theorem processKeysCam_vlist (l : List PyVal) :
    processKeysCam (.vlist l) = .vlist (camList l) := by
  simp only [processKeysCam]

theorem processKeysCam_vdict (d : List (PyVal × PyVal)) :
    processKeysCam (.vdict d) = .vdict (buildDict (camDict d)) := by
  simp only [processKeysCam]

theorem processKeysCam_scalar {v : PyVal} (h : isScalar v = true) :
    processKeysCam v = v := by
  cases v <;> simp_all [processKeysCam, isScalar]

theorem camList_nil : camList [] = [] := by simp only [camList]

theorem camList_cons (v : PyVal) (r : List PyVal) :
    camList (v :: r) = processKeysCam v :: camList r := by
  simp only [camList]

theorem camDict_nil : camDict [] = [] := by simp only [camDict]

theorem camDict_cons (k v : PyVal) (r : List (PyVal × PyVal)) :
    camDict ((k, v) :: r) = (camelize k, processKeysCam v) :: camDict r := by
  simp only [camDict]

theorem decamelize_vlist (l : List PyVal) :
    decamelize (.vlist l) = .vlist (decList l) := by
  simp only [decamelize]

theorem decamelize_vdict (d : List (PyVal × PyVal)) :
    decamelize (.vdict d) = .vdict (buildDict (decDict d)) := by
  simp only [decamelize]

theorem processKeysDec_vlist (l : List PyVal) :
    processKeysDec (.vlist l) = .vlist (decList l) := by
  simp only [processKeysDec]

theorem processKeysDec_vdict (d : List (PyVal × PyVal)) :
    processKeysDec (.vdict d) = .vdict (buildDict (decDict d)) := by
  simp only [processKeysDec]

theorem processKeysDec_scalar {v : PyVal} (h : isScalar v = true) :
    processKeysDec v = v := by
  cases v <;> simp_all [processKeysDec, isScalar]

theorem decList_nil : decList [] = [] := by simp only [decList]

theorem decList_cons (v : PyVal) (r : List PyVal) :
    decList (v :: r) = processKeysDec v :: decList r := by
  simp only [decList]

theorem decDict_nil : decDict [] = [] := by simp only [decDict]

theorem decDict_cons (k v : PyVal) (r : List (PyVal × PyVal)) :
    decDict ((k, v) :: r) = (decamelize k, processKeysDec v) :: decDict r := by
  simp only [decDict]

theorem buildDict_single (k v : PyVal) : buildDict [(k, v)] = [(k, v)] := by
  simp [buildDict, dinsert]

/-!
## Claim theorems
-/

/-- C1: Both scalar converters are idempotent: for every string `s`,
`toCamel(toCamel(s)) == toCamel(s)` and `toSnake(toSnake(s)) == toSnake(s)`
(code names: `camelize` and `decamelize`). -/
theorem claim_C1_converters_idempotent (s : List Nat) :
    camelize (camelize (.vstr s)) = camelize (.vstr s) ∧
    decamelize (decamelize (.vstr s)) = decamelize (.vstr s) := by
  constructor
  · rw [camelize_vstr, camelize_vstr, camelizeStr_idem]
  · rw [decamelize_vstr, decamelize_vstr, decamelizeStr_idem]

/-- C3 counterexample: `camelize` keeps the trailing underscore of
`"a_"` (the `UNDERSCORE_RE` look-behind/followed-by pattern only removes
interior delimiter runs), so its output does contain a delimiter. -/
theorem claim_C3_counterexample :
    camelize (.vstr (str2l "a_")) = .vstr (str2l "a_") ∧
    (camelizeStr (str2l "a_")).any isDelim = true := by
  constructor
  · rw [camelize_vstr]
    exact congrArg PyVal.vstr (by decide)
  · decide

/-- C3 (amended): for every string that does not take the
`isupper`/`isnumeric` early-out, all delimiters of `toCamel(s)` lie in
its leading or trailing delimiter run — every delimiter run between two
non-delimiter characters is removed.  (Leading/trailing delimiters, and
strings taking the early-out, keep their delimiters.) -/
theorem claim_C3_amended (s : List Nat) (h1 : pyIsUpper s = false)
    (h2 : pyIsNumeric s = false) :
    ∃ D1 M D2, camelizeStr s = D1 ++ M ++ D2 ∧ (∀ c ∈ D1, isDelim c = true) ∧
      (∀ c ∈ M, isDelim c = false) ∧ (∀ c ∈ D2, isDelim c = true) := by
  rw [camelizeStr_main h1 h2]
  exact camelSub_shape _

theorem claim_C3_amended_witness :
    pyIsUpper (str2l "a_b") = false ∧ pyIsNumeric (str2l "a_b") = false ∧
    ∃ D1 M D2, camelizeStr (str2l "a_b") = D1 ++ M ++ D2 ∧
      (∀ c ∈ D1, isDelim c = true) ∧ (∀ c ∈ M, isDelim c = false) ∧
      (∀ c ∈ D2, isDelim c = true) :=
  ⟨by decide, by decide, claim_C3_amended (str2l "a_b") (by decide) (by decide)⟩

/-- C4 counterexample: `"A1b"` is neither all-uppercase nor all-numeric
and its first two characters (`'A'`, `'1'`) are not both uppercase
letters, yet `camelize` leaves the leading `'A'` (code point 65) as-is —
it does not lower-case it to `'a'` — because Python's `"A1".isupper()`
is true. -/
theorem claim_C4_counterexample :
    camelize (.vstr (str2l "A1b")) = .vstr (str2l "A1b") ∧
    (camelizeStr (str2l "A1b")).head? = some 65 ∧
    pyToLower 65 = 97 ∧
    (str2l "A1b").take 2 = [65, 49] ∧ isUpperCh 49 = false ∧
    isLowerCh 98 = true ∧ 98 ∈ str2l "A1b" := by
  refine ⟨?_, by decide, by decide, by decide, by decide, by decide, by decide⟩
  rw [camelize_vstr]
  exact congrArg PyVal.vstr (by decide)

/-- C4 (amended): for a non-empty string that is neither Python-`isupper`
nor `isnumeric`, `toCamel` lower-cases the first character exactly when
the first two characters are not `isupper` in Python's sense (at least
one cased character, no lowercase one); in particular an uppercase letter
followed by a digit or delimiter is preserved, not lowered. -/
theorem claim_C4_amended (c : Nat) (s : List Nat) (h1 : pyIsUpper (c :: s) = false)
    (h2 : pyIsNumeric (c :: s) = false) :
    (camelizeStr (c :: s)).head? =
      some (if pyIsUpper ((c :: s).take 2) = true then c else pyToLower c) := by
  rw [camelizeStr_main h1 h2]
  by_cases hc : pyIsUpper ((c :: s).take 2) = true
  · rw [if_pos hc]
    have e : (if (!(c :: s).isEmpty && !pyIsUpper ((c :: s).take 2)) = true
        then lowerFirst (c :: s) else (c :: s)) = c :: s := by
      rw [if_neg]
      rw [hc]
      simp
    rw [e, camelSub_cons]
    simp
  · rw [if_neg hc]
    rw [Bool.not_eq_true] at hc
    have hcond : (!(c :: s).isEmpty && !pyIsUpper ((c :: s).take 2)) = true := by
      rw [Bool.and_eq_true]
      refine ⟨by simp, ?_⟩
      rw [hc]
      rfl
    have e : (if (!(c :: s).isEmpty && !pyIsUpper ((c :: s).take 2)) = true
        then lowerFirst (c :: s) else (c :: s)) = pyToLower c :: s := by
      rw [if_pos hcond]
      rfl
    rw [e, camelSub_cons]
    simp

theorem claim_C4_amended_witness :
    pyIsUpper (str2l "Hello") = false ∧ pyIsNumeric (str2l "Hello") = false ∧
    (camelizeStr (str2l "Hello")).head? =
      some (if pyIsUpper ((str2l "Hello").take 2) = true then 72 else pyToLower 72) := by
  refine ⟨by decide, by decide, ?_⟩
  have e : str2l "Hello" = 72 :: str2l "ello" := by decide
  rw [e]
  exact claim_C4_amended 72 (str2l "ello") (by decide) (by decide)

/-- C7: every string consisting entirely of uppercase letters, or
entirely of digits, passes through both converters unchanged (the
`isupper`/`isnumeric` early-out), as a no-op and never a failure. -/
theorem claim_C7_constant_preservation (s : List Nat)
    (h : (s ≠ [] ∧ ∀ c ∈ s, isUpperCh c = true) ∨
         (s ≠ [] ∧ ∀ c ∈ s, isDigitCh c = true)) :
    camelize (.vstr s) = .vstr s ∧ decamelize (.vstr s) = .vstr s := by
  have hearly : pyIsUpper s = true ∨ pyIsNumeric s = true := by
    rcases h with ⟨hne, hall⟩ | ⟨hne, hall⟩
    · left
      unfold pyIsUpper
      rw [Bool.and_eq_true, List.any_eq_true, List.all_eq_true]
      constructor
      · cases s with
        | nil => exact absurd rfl hne
        | cons x xs =>
          exact ⟨x, by simp, by simp [isCasedCh, hall x (by simp)]⟩
      · intro c hc
        simp [not_lower_of_upper (hall c hc)]
    · right
      unfold pyIsNumeric
      rw [Bool.and_eq_true, List.all_eq_true]
      constructor
      · cases s with
        | nil => exact absurd rfl hne
        | cons x xs => simp
      · exact hall
  rw [camelize_vstr, decamelize_vstr, camelizeStr_early hearly,
    decamelizeStr_early hearly]
  exact ⟨rfl, rfl⟩

theorem claim_C7_constant_preservation_witness :
    ((str2l "ABC" ≠ [] ∧ ∀ c ∈ str2l "ABC", isUpperCh c = true) ∨
      (str2l "ABC" ≠ [] ∧ ∀ c ∈ str2l "ABC", isDigitCh c = true)) ∧
    (camelize (.vstr (str2l "ABC")) = .vstr (str2l "ABC") ∧
      decamelize (.vstr (str2l "ABC")) = .vstr (str2l "ABC")) ∧
    (camelize (.vstr (str2l "12345")) = .vstr (str2l "12345") ∧
      decamelize (.vstr (str2l "12345")) = .vstr (str2l "12345")) :=
  ⟨Or.inl ⟨by decide, by decide⟩,
    claim_C7_constant_preservation (str2l "ABC") (Or.inl ⟨by decide, by decide⟩),
    claim_C7_constant_preservation (str2l "12345") (Or.inr ⟨by decide, by decide⟩)⟩

/-- C9: `toCamel` never makes a string longer. -/
theorem claim_C9_length_never_increases (s : List Nat) :
    (camelizeStr s).length ≤ s.length := by
  by_cases h0 : pyIsUpper s = true ∨ pyIsNumeric s = true
  · rw [camelizeStr_early h0]
  · simp only [not_or, Bool.not_eq_true] at h0
    rw [camelizeStr_main h0.1 h0.2]
    by_cases hc : (!s.isEmpty && !pyIsUpper (s.take 2)) = true
    · rw [if_pos hc]
      calc (camelSub (lowerFirst s)).length
          ≤ (lowerFirst s).length := camelSub_length _
        _ = s.length := lowerFirst_length s
    · rw [if_neg hc]
      exact camelSub_length s

/-- C10 (implicit): the no-op early-out is wider than "entirely
uppercase letters": every string with at least one cased character and
no lowercase character — including `"MAX_VALUE"` or `"A1B"` — is
returned unchanged by both converters. -/
theorem claim_C10_early_out_wider (s : List Nat)
    (h1 : ∃ c ∈ s, isCasedCh c = true) (h2 : ∀ c ∈ s, isLowerCh c = false) :
    camelize (.vstr s) = .vstr s ∧ decamelize (.vstr s) = .vstr s := by
  have hearly : pyIsUpper s = true ∨ pyIsNumeric s = true := by
    left
    unfold pyIsUpper
    rw [Bool.and_eq_true, List.any_eq_true, List.all_eq_true]
    exact ⟨h1, fun c hc => by simp [h2 c hc]⟩
  rw [camelize_vstr, decamelize_vstr, camelizeStr_early hearly,
    decamelizeStr_early hearly]
  exact ⟨rfl, rfl⟩

theorem claim_C10_early_out_wider_witness :
    ((∃ c ∈ str2l "MAX_VALUE", isCasedCh c = true) ∧
      (∀ c ∈ str2l "MAX_VALUE", isLowerCh c = false)) ∧
    (camelize (.vstr (str2l "MAX_VALUE")) = .vstr (str2l "MAX_VALUE") ∧
      decamelize (.vstr (str2l "MAX_VALUE")) = .vstr (str2l "MAX_VALUE")) ∧
    (camelize (.vstr (str2l "A1B")) = .vstr (str2l "A1B") ∧
      decamelize (.vstr (str2l "A1B")) = .vstr (str2l "A1B")) :=
  ⟨⟨by decide, by decide⟩,
    claim_C10_early_out_wider (str2l "MAX_VALUE") (by decide) (by decide),
    claim_C10_early_out_wider (str2l "A1B") (by decide) (by decide)⟩

/-- C8 counterexample: a string inside a sequence is NOT converted —
`_process_keys` recurses with `_process_keys(k, fn)` on list elements,
which returns a bare string unchanged, while the scalar converter
would have produced `"helloWorld"`. -/
theorem claim_C8_counterexample :
    camelize (.vlist [.vstr (str2l "hello_world")]) =
      .vlist [.vstr (str2l "hello_world")] ∧
    camelizeStr (str2l "hello_world") = str2l "helloWorld" ∧
    str2l "helloWorld" ≠ str2l "hello_world" := by
  refine ⟨?_, by decide, by decide⟩
  rw [camelize_vlist, camList_cons, camList_nil,
    processKeysCam_scalar (by simp [isScalar])]

/-- C8 (amended): for every sequence whose elements are strings, both
`toCamel` and `toSnake` return the sequence unchanged — the walker
converts only mapping keys, leaving string elements of sequences as-is. -/
theorem camList_map_vstr (l : List (List Nat)) :
    camList (l.map (fun s => .vstr s)) = l.map (fun s => .vstr s) := by
  induction l with
  | nil => simp [camList_nil]
  | cons x xs ih =>
    rw [List.map_cons, camList_cons, processKeysCam_scalar (by simp [isScalar]), ih]

theorem decList_map_vstr (l : List (List Nat)) :
    decList (l.map (fun s => .vstr s)) = l.map (fun s => .vstr s) := by
  induction l with
  | nil => simp [decList_nil]
  | cons x xs ih =>
    rw [List.map_cons, decList_cons, processKeysDec_scalar (by simp [isScalar]), ih]

theorem claim_C8_amended (l : List (List Nat)) :
    camelize (.vlist (l.map (fun s => .vstr s))) =
      .vlist (l.map (fun s => .vstr s)) ∧
    decamelize (.vlist (l.map (fun s => .vstr s))) =
      .vlist (l.map (fun s => .vstr s)) := by
  rw [camelize_vlist, decamelize_vlist, camList_map_vstr, decList_map_vstr]
  exact ⟨rfl, rfl⟩

/-- `camelize(True)`: coerced to `"True"`, then converted to `"true"`. -/
theorem camelize_vbool_true : camelize (.vbool true) = .vstr (str2l "true") := by
  have h1 : (pyIsUpper (str2l "True") || pyIsNumeric (str2l "True")) = false := by decide
  simp only [camelize]
  unfold scalarCamelize
  have hs : (if pyTruthy (.vbool true) = true then pyStr (.vbool true) else []) =
      str2l "True" := by
    simp [pyTruthy, pyStr]
  rw [hs]
  simp only [h1, Bool.false_eq_true, if_false]
  exact congrArg PyVal.vstr (by decide)

/-- C5 counterexample: a boolean passed directly to a scalar converter
does not raise a type-mismatch failure — `camelize(True)` silently
coerces via `str()` and returns the converted string `"true"`. -/
theorem claim_C5_counterexample :
    camelize (.vbool true) = .vstr (str2l "true") := camelize_vbool_true

/-- A falsy scalar is coerced to the empty string, which converts to the
empty string. -/
theorem scalarCamelize_falsy {v : PyVal} (h : pyTruthy v = false) :
    scalarCamelize v = .vstr [] := by
  unfold scalarCamelize
  rw [h]
  simp [pyIsUpper, pyIsNumeric, camelSub]

theorem scalarDecamelize_falsy {v : PyVal} (h : pyTruthy v = false) :
    scalarDecamelize v = .vstr [] := by
  unfold scalarDecamelize
  rw [h]
  simp [pyIsUpper, pyIsNumeric, acronymSub, acronymGo, titleRun, splitPieces,
    splitAux, joinUnderscore]

/-- C5 (amended): a non-container, non-string value passed directly to a
scalar converter is never a failure: a truthy value is coerced with
`str()` and converted (`True` → `"true"` under both converters), and a
falsy value (`False`, `None`, `0`) is treated as the empty string and
yields `""`. -/
theorem claim_C5_amended :
    decamelize (.vbool true) = .vstr (str2l "true") ∧
    camelize (.vbool false) = .vstr [] ∧
    camelize .vnone = .vstr [] ∧
    camelize (.vint 0) = .vstr [] ∧
    decamelize (.vbool false) = .vstr [] ∧
    decamelize .vnone = .vstr [] ∧
    decamelize (.vint 0) = .vstr [] := by
  refine ⟨?_, ?_, ?_, ?_, ?_, ?_, ?_⟩
  · simp only [decamelize]
    unfold scalarDecamelize
    have hs : (if pyTruthy (.vbool true) = true then pyStr (.vbool true) else []) =
        str2l "True" := by
      simp [pyTruthy, pyStr]
    have h1 : (pyIsUpper (str2l "True") || pyIsNumeric (str2l "True")) = false := by
      decide
    rw [hs]
    simp only [h1, Bool.false_eq_true, if_false]
    exact congrArg PyVal.vstr (by decide)
  · simp only [camelize]
    exact scalarCamelize_falsy (by simp [pyTruthy])
  · simp only [camelize]
    exact scalarCamelize_falsy (by simp [pyTruthy])
  · simp only [camelize]
    exact scalarCamelize_falsy (by simp [pyTruthy])
  · simp only [decamelize]
    exact scalarDecamelize_falsy (by simp [pyTruthy])
  · simp only [decamelize]
    exact scalarDecamelize_falsy (by simp [pyTruthy])
  · simp only [decamelize]
    exact scalarDecamelize_falsy (by simp [pyTruthy])

/-- C2 counterexample: the walker applies the converter to EVERY mapping
key: the boolean key `True` is replaced by the string `"true"`, so a
non-string key does not pass through unchanged. -/
theorem claim_C2_counterexample :
    camelize (.vdict [(.vbool true, .vint 1)]) =
      .vdict [(.vstr (str2l "true"), .vint 1)] ∧
    (PyVal.vstr (str2l "true") ≠ .vbool true) := by
  constructor
  · rw [camelize_vdict, camDict_cons, camDict_nil, camelize_vbool_true,
      processKeysCam_scalar (by simp [isScalar]), buildDict_single]
  · exact fun h => PyVal.noConfusion h

theorem natToDigits_all_digit : ∀ n : Nat, ∀ c ∈ natToDigits n, isDigitCh c = true := by
  intro n
  induction n using Nat.strong_induction_on with
  | _ n ih =>
    match n with
    | 0 => simp [natToDigits]
    | m + 1 =>
      rw [natToDigits]
      intro c hc
      rw [List.mem_append] at hc
      rcases hc with hc | hc
      · exact ih ((m + 1) / 10) (Nat.div_lt_self (by omega) (by norm_num)) c hc
      · rw [List.mem_singleton] at hc
        subst hc
        have hlt : (m + 1) % 10 < 10 := Nat.mod_lt _ (by norm_num)
        simp only [isDigitCh, Bool.and_eq_true, decide_eq_true_eq]
        omega

theorem natToDigits_ne_nil {n : Nat} (h : 0 < n) : natToDigits n ≠ [] := by
  cases n with
  | zero => omega
  | succ m =>
    rw [natToDigits]
    simp

/-- `str()` of a positive int is Python-`isnumeric`. -/
theorem pyIsNumeric_intRepr_pos {n : Int} (h : 0 < n) :
    pyIsNumeric (intRepr n) = true := by
  unfold intRepr
  rw [if_neg (by omega), if_neg (by omega)]
  unfold pyIsNumeric
  rw [Bool.and_eq_true, List.all_eq_true]
  constructor
  · have hne := natToDigits_ne_nil (n := n.natAbs) (by omega)
    simpa [List.isEmpty_iff] using hne
  · exact natToDigits_all_digit n.natAbs

/-- A positive int hits the `isnumeric` early-out, which returns the
original object. -/
theorem camelize_vint_pos {n : Int} (h : 0 < n) : camelize (.vint n) = .vint n := by
  simp only [camelize]
  unfold scalarCamelize
  have ht : pyTruthy (.vint n) = true := by
    simp only [pyTruthy, decide_eq_true_eq]
    omega
  rw [ht]
  have hn : pyIsNumeric (intRepr n) = true := pyIsNumeric_intRepr_pos h
  simp [pyStr, hn]

theorem decamelize_vint_pos {n : Int} (h : 0 < n) :
    decamelize (.vint n) = .vint n := by
  simp only [decamelize]
  unfold scalarDecamelize
  have ht : pyTruthy (.vint n) = true := by
    simp only [pyTruthy, decide_eq_true_eq]
    omega
  rw [ht]
  have hn : pyIsNumeric (intRepr n) = true := pyIsNumeric_intRepr_pos h
  simp [pyStr, hn]

/-- C2 (amended): a positive-integer key does pass through both
converters unchanged, paired with its recursively walked value (the
`str()` of a positive int is `isnumeric`, and that early-out returns the
original object); other non-string keys (booleans, `None`, zero,
negative integers) are converted to strings instead. -/
theorem claim_C2_amended (n : Int) (hn : 0 < n) (v : PyVal)
    (hv : isScalar v = true) :
    camelize (.vdict [(.vint n, v)]) = .vdict [(.vint n, v)] ∧
    decamelize (.vdict [(.vint n, v)]) = .vdict [(.vint n, v)] := by
  constructor
  · rw [camelize_vdict, camDict_cons, camDict_nil, camelize_vint_pos hn,
      processKeysCam_scalar hv, buildDict_single]
  · rw [decamelize_vdict, decDict_cons, decDict_nil, decamelize_vint_pos hn,
      processKeysDec_scalar hv, buildDict_single]

theorem claim_C2_amended_witness :
    (0 : Int) < 7 ∧ isScalar (.vint 3) = true ∧
    (camelize (.vdict [(.vint 7, .vint 3)]) = .vdict [(.vint 7, .vint 3)] ∧
      decamelize (.vdict [(.vint 7, .vint 3)]) = .vdict [(.vint 7, .vint 3)]) :=
  ⟨by decide, by decide, claim_C2_amended 7 (by decide) (.vint 3) (by decide)⟩

/-- Inserting pairwise-distinct keys never overwrites: the fold appends. -/
theorem foldl_dinsert_append (entries : List (PyVal × PyVal)) :
    ∀ acc : List (PyVal × PyVal),
    (∀ kv ∈ entries, ∀ p ∈ acc, keyEq p.1 kv.1 = false) →
    List.Pairwise (fun x y => keyEq x.1 y.1 = false) entries →
    List.foldl (fun acc kv => dinsert acc kv.1 kv.2) acc entries = acc ++ entries := by
  induction entries with
  | nil => intro acc _ _; simp
  | cons kv rest ih =>
    intro acc hdisj hpw
    rw [List.foldl_cons]
    have hno : acc.any (fun p => keyEq p.1 kv.1) = false := by
      rw [Bool.eq_false_iff]
      intro hany
      rw [List.any_eq_true] at hany
      obtain ⟨p, hp, hpk⟩ := hany
      rw [hdisj kv (by simp) p hp] at hpk
      exact absurd hpk (by simp)
    have hins : dinsert acc kv.1 kv.2 = acc ++ [kv] := by
      unfold dinsert
      rw [hno]
      simp
    have hd : ∀ kv' ∈ rest, ∀ p ∈ acc ++ [kv], keyEq p.1 kv'.1 = false := by
      intro kv' hkv' p hp
      rw [List.mem_append] at hp
      rcases hp with hp | hp
      · exact hdisj kv' (by simp [hkv']) p hp
      · rw [List.mem_singleton] at hp
        subst hp
        exact (List.pairwise_cons.1 hpw).1 kv' hkv'
    rw [hins, ih (acc ++ [kv]) hd (List.pairwise_cons.1 hpw).2]
    simp

theorem buildDict_pairwise {entries : List (PyVal × PyVal)}
    (h : List.Pairwise (fun x y => keyEq x.1 y.1 = false) entries) :
    buildDict entries = entries := by
  unfold buildDict
  rw [foldl_dinsert_append entries [] (by intro kv _ p hp; simp at hp) h]
  simp

/-- The comprehension pairs of a string-keyed mapping with scalar
values: keys converted, values untouched. -/
theorem camDict_strmap (d : List (List Nat × PyVal))
    (hv : ∀ kv ∈ d, isScalar kv.2 = true) :
    camDict (d.map (fun kv => (.vstr kv.1, kv.2))) =
      d.map (fun kv => (.vstr (camelizeStr kv.1), kv.2)) := by
  induction d with
  | nil => simp [camDict_nil]
  | cons kv rest ih =>
    simp only [List.map_cons]
    rw [camDict_cons, camelize_vstr, processKeysCam_scalar (hv kv (by simp)),
      ih (fun x hx => hv x (by simp [hx]))]

theorem decDict_strmap (d : List (List Nat × PyVal))
    (hv : ∀ kv ∈ d, isScalar kv.2 = true) :
    decDict (d.map (fun kv => (.vstr kv.1, kv.2))) =
      d.map (fun kv => (.vstr (decamelizeStr kv.1), kv.2)) := by
  induction d with
  | nil => simp [decDict_nil]
  | cons kv rest ih =>
    simp only [List.map_cons]
    rw [decDict_cons, decamelize_vstr, processKeysDec_scalar (hv kv (by simp)),
      ih (fun x hx => hv x (by simp [hx]))]

theorem pairwise_keyEq_of_nodup {d : List (List Nat × PyVal)}
    {f : List Nat → List Nat} (hk : (d.map (fun kv => f kv.1)).Nodup) :
    List.Pairwise (fun x y => keyEq x.1 y.1 = false)
      (d.map (fun kv => (.vstr (f kv.1), kv.2))) := by
  rw [List.pairwise_map]
  have hk' : List.Pairwise (fun a b => f a.1 ≠ f b.1) d := List.pairwise_map.1 hk
  refine hk'.imp ?_
  intro a b hab
  simp only [keyEq]
  exact decide_eq_false hab

theorem processKeysCam_strdict (d : List (List Nat × PyVal))
    (hv : ∀ kv ∈ d, isScalar kv.2 = true)
    (hk : (d.map (fun kv => camelizeStr kv.1)).Nodup) :
    processKeysCam (.vdict (d.map (fun kv => (.vstr kv.1, kv.2)))) =
      .vdict (d.map (fun kv => (.vstr (camelizeStr kv.1), kv.2))) := by
  rw [processKeysCam_vdict, camDict_strmap d hv,
    buildDict_pairwise (pairwise_keyEq_of_nodup hk)]

theorem processKeysDec_strdict (d : List (List Nat × PyVal))
    (hv : ∀ kv ∈ d, isScalar kv.2 = true)
    (hk : (d.map (fun kv => decamelizeStr kv.1)).Nodup) :
    processKeysDec (.vdict (d.map (fun kv => (.vstr kv.1, kv.2)))) =
      .vdict (d.map (fun kv => (.vstr (decamelizeStr kv.1), kv.2))) := by
  rw [processKeysDec_vdict, decDict_strmap d hv,
    buildDict_pairwise (pairwise_keyEq_of_nodup hk)]

theorem camList_strdicts (ds : List (List (List Nat × PyVal))) :
    (∀ d ∈ ds, ∀ kv ∈ d, isScalar kv.2 = true) →
    (∀ d ∈ ds, (d.map (fun kv => camelizeStr kv.1)).Nodup) →
    camList (ds.map (fun d => .vdict (d.map (fun kv => (.vstr kv.1, kv.2))))) =
      ds.map (fun d => .vdict (d.map (fun kv => (.vstr (camelizeStr kv.1), kv.2)))) := by
  induction ds with
  | nil => intro _ _; simp [camList_nil]
  | cons d rest ih =>
    intro hv hk
    simp only [List.map_cons]
    rw [camList_cons, processKeysCam_strdict d (hv d (by simp)) (hk d (by simp)),
      ih (fun x hx => hv x (by simp [hx])) (fun x hx => hk x (by simp [hx]))]

theorem decList_strdicts (ds : List (List (List Nat × PyVal))) :
    (∀ d ∈ ds, ∀ kv ∈ d, isScalar kv.2 = true) →
    (∀ d ∈ ds, (d.map (fun kv => decamelizeStr kv.1)).Nodup) →
    decList (ds.map (fun d => .vdict (d.map (fun kv => (.vstr kv.1, kv.2))))) =
      ds.map (fun d => .vdict (d.map (fun kv => (.vstr (decamelizeStr kv.1), kv.2)))) := by
  induction ds with
  | nil => intro _ _; simp [decList_nil]
  | cons d rest ih =>
    intro hv hk
    simp only [List.map_cons]
    rw [decList_cons, processKeysDec_strdict d (hv d (by simp)) (hk d (by simp)),
      ih (fun x hx => hv x (by simp [hx])) (fun x hx => hk x (by simp [hx]))]

/-- C6 counterexample: for a sequence of mappings whose values are
themselves mappings, the output mappings do NOT have the same value set:
the walker recursively converts keys inside the values, so the value
`{"b_c": 1}` becomes `{"bC": 1}`. -/
theorem claim_C6_counterexample :
    camelize (.vlist [.vdict [(.vstr (str2l "a"),
        .vdict [(.vstr (str2l "b_c"), .vint 1)])]]) =
      .vlist [.vdict [(.vstr (str2l "a"),
        .vdict [(.vstr (str2l "bC"), .vint 1)])]] ∧
    (PyVal.vdict [(.vstr (str2l "bC"), .vint 1)] ≠
      .vdict [(.vstr (str2l "b_c"), .vint 1)]) := by
  constructor
  · rw [camelize_vlist, camList_cons, camList_nil, processKeysCam_vdict,
      camDict_cons, camDict_nil]
    have hk1 : camelize (.vstr (str2l "a")) = .vstr (str2l "a") := by
      rw [camelize_vstr]
      exact congrArg _ (by decide)
    have hv1 : processKeysCam (.vdict [(.vstr (str2l "b_c"), .vint 1)]) =
        .vdict [(.vstr (str2l "bC"), .vint 1)] := by
      rw [processKeysCam_vdict, camDict_cons, camDict_nil]
      have hk2 : camelize (.vstr (str2l "b_c")) = .vstr (str2l "bC") := by
        rw [camelize_vstr]
        exact congrArg _ (by decide)
      rw [hk2, processKeysCam_scalar (by simp [isScalar]), buildDict_single]
    rw [hk1, hv1, buildDict_single]
  · intro h
    simp only [PyVal.vdict.injEq, List.cons.injEq, Prod.mk.injEq,
      PyVal.vstr.injEq] at h
    exact absurd h.1.1 (by decide)

/-- C6 (amended): for a sequence of string-keyed mappings whose values
are scalars (non-containers) and whose converted keys do not collide,
both converters return a sequence of the same length and order in which
each mapping has exactly its keys converted and its values unchanged.
(Container values are recursively walked instead, and colliding
converted keys overwrite — hence the restriction.) -/
theorem claim_C6_amended (ds : List (List (List Nat × PyVal)))
    (hv : ∀ d ∈ ds, ∀ kv ∈ d, isScalar kv.2 = true)
    (hkc : ∀ d ∈ ds, (d.map (fun kv => camelizeStr kv.1)).Nodup)
    (hkd : ∀ d ∈ ds, (d.map (fun kv => decamelizeStr kv.1)).Nodup) :
    camelize (.vlist (ds.map (fun d =>
        .vdict (d.map (fun kv => (.vstr kv.1, kv.2)))))) =
      .vlist (ds.map (fun d =>
        .vdict (d.map (fun kv => (.vstr (camelizeStr kv.1), kv.2))))) ∧
    decamelize (.vlist (ds.map (fun d =>
        .vdict (d.map (fun kv => (.vstr kv.1, kv.2)))))) =
      .vlist (ds.map (fun d =>
        .vdict (d.map (fun kv => (.vstr (decamelizeStr kv.1), kv.2))))) := by
  constructor
  · rw [camelize_vlist, camList_strdicts ds hv hkc]
  · rw [decamelize_vlist, decList_strdicts ds hv hkd]

theorem claim_C6_amended_witness :
    (∀ d ∈ [[(str2l "a_b", PyVal.vint 1)], [(str2l "c_d", PyVal.vint 2)]],
      ∀ kv ∈ d, isScalar kv.2 = true) ∧
    (∀ d ∈ [[(str2l "a_b", PyVal.vint 1)], [(str2l "c_d", PyVal.vint 2)]],
      (d.map (fun kv => camelizeStr kv.1)).Nodup) ∧
    (∀ d ∈ [[(str2l "a_b", PyVal.vint 1)], [(str2l "c_d", PyVal.vint 2)]],
      (d.map (fun kv => decamelizeStr kv.1)).Nodup) ∧
    (camelize (.vlist ([[(str2l "a_b", PyVal.vint 1)],
        [(str2l "c_d", PyVal.vint 2)]].map (fun d =>
        .vdict (d.map (fun kv => (.vstr kv.1, kv.2)))))) =
      .vlist ([[(str2l "a_b", PyVal.vint 1)],
        [(str2l "c_d", PyVal.vint 2)]].map (fun d =>
        .vdict (d.map (fun kv => (.vstr (camelizeStr kv.1), kv.2))))) ∧
    decamelize (.vlist ([[(str2l "a_b", PyVal.vint 1)],
        [(str2l "c_d", PyVal.vint 2)]].map (fun d =>
        .vdict (d.map (fun kv => (.vstr kv.1, kv.2)))))) =
      .vlist ([[(str2l "a_b", PyVal.vint 1)],
        [(str2l "c_d", PyVal.vint 2)]].map (fun d =>
        .vdict (d.map (fun kv => (.vstr (decamelizeStr kv.1), kv.2)))))) :=
  ⟨by decide, by decide, by decide,
    claim_C6_amended [[(str2l "a_b", PyVal.vint 1)], [(str2l "c_d", PyVal.vint 2)]]
      (by decide) (by decide) (by decide)⟩

end JsUtils
